import Mathlib

/-!
# Verification of the social/bookmarking backend core

A shallow embedding, in Lean 4, of the core of the backend: the
formattable error taxonomy and the router error mapping
(`framework/router.ts`, `concepts/errors.ts`), the generic document
store (`framework/doc.ts`), and the Authenticating, Tagging and
Graphing concepts (`concepts/authenticating.ts`, `concepts/tagging.ts`,
`concepts/webapping.ts`).

Object identifiers (Mongo `ObjectId`) are modelled as `Nat`, dates as
`Nat`, and each concept collection as a list of documents in insertion
order, with a counter supplying fresh identifiers.  Mongo `updateOne`
and `deleteOne` act on the first document matching the filter; `$addToSet`
appends when absent; `$pull` removes all occurrences.  Fallible
operations return `Except`, mirroring `throw`.
-/

namespace Backend

/-! ## Error taxonomy (`concepts/errors.ts`, `framework/router.ts`)

`ErrClass` is the runtime class of a thrown error object: `error` for a
plain `Error`, `formattable` for the base `FormattableError`, and one
class per taxonomy subclass. -/

inductive ErrClass where
  | error
  | formattable
  | badValues
  | unauthenticated
  | notAllowed
  | notFound
  | wrongUser
  | doesNotExist
  deriving DecidableEq, Repr

/-- `instanceOf c d` : an object of runtime class `c` satisfies
`instanceof` for class `d` (the subclass relation of the source:
every taxonomy class extends `FormattableError`, which extends `Error`). -/
def instanceOf (c d : ErrClass) : Bool :=
  c = d ||
  (d = .error) ||
  (d = .formattable && c != .error)

/-- Fold of a digit run to a number (the regex capture `(\d+)` used as an
array index in `format.replace`). -/
def digitsToNat (ds : List Char) : Nat :=
  ds.foldl (fun a d => 10 * a + (d.toNat - 48)) 0

/-- A helper bound used to justify termination of `renderChars`. -/
theorem length_dropWhile_le (p : Char → Bool) (l : List Char) :
    (l.dropWhile p).length ≤ l.length := by
  induction l with
  | nil => simp [List.dropWhile]
  | cons c cs ih =>
    by_cases h : p c
    · simp [List.dropWhile, h]; omega
    · simp [List.dropWhile, h]

/-- The body of `FormattableError`'s `format.replace(/{(\d+)}/g, ...)`:
scan the character list; at `\x7b` followed by one or more digits and
`\x7d`, substitute `args[n]` when index `n` is in bounds, otherwise keep
the matched text verbatim. -/
def renderChars (args : List String) : List Char → List Char
  | [] => []
  | c :: rest =>
    if c = '{' then
      let ds := rest.takeWhile Char.isDigit
      match hm : rest.dropWhile Char.isDigit with
      | '}' :: rest3 =>
        if ds.isEmpty then c :: renderChars args rest
        else
          match args[digitsToNat ds]? with
          | some s => s.data ++ renderChars args rest3
          | none => c :: ds ++ '}' :: renderChars args rest3
      | _ => c :: renderChars args rest
    else c :: renderChars args rest
  termination_by l => l.length
  decreasing_by
    all_goals first
      | (have h := length_dropWhile_le Char.isDigit rest
         rw [hm] at h
         simp at h ⊢
         omega)
      | (simp; try omega)

/-- Render a message template with positional arguments, as the
`FormattableError` constructor does. -/
def renderFormat (format : String) (args : List String) : String :=
  String.mk (renderChars args format.data)

/-- A `FormattableError` object: its runtime class, its `HTTP_CODE`
field, the immutable `format` template, and the rendered `message`. -/
structure FmtError where
  cls : ErrClass
  httpCode : Nat
  format : String
  message : String
  deriving DecidableEq, Repr

/-- `new FormattableError(format, ...args)`: class field `HTTP_CODE`
initialises to 500. -/
def mkFormattableError (format : String) (args : List String) : FmtError :=
  ⟨.formattable, 500, format, renderFormat format args⟩

/-- `new BadValuesError(format, ...args)` (`HTTP_CODE = 400`). -/
def mkBadValuesError (format : String) (args : List String) : FmtError :=
  ⟨.badValues, 400, format, renderFormat format args⟩

/-- `new UnauthenticatedError(format, ...args)` (`HTTP_CODE = 401`). -/
def mkUnauthenticatedError (format : String) (args : List String) : FmtError :=
  ⟨.unauthenticated, 401, format, renderFormat format args⟩

/-- `new NotAllowedError(format, ...args)` (`HTTP_CODE = 403`). -/
def mkNotAllowedError (format : String) (args : List String) : FmtError :=
  ⟨.notAllowed, 403, format, renderFormat format args⟩

/-- `new NotFoundError(format, ...args)` (`HTTP_CODE = 404`). -/
def mkNotFoundError (format : String) (args : List String) : FmtError :=
  ⟨.notFound, 404, format, renderFormat format args⟩

/-- `new WrongUserError(format, ...args)` (`HTTP_CODE = 409`). -/
def mkWrongUserError (format : String) (args : List String) : FmtError :=
  ⟨.wrongUser, 409, format, renderFormat format args⟩

/-- `new DoesNotExistError(format, ...args)` (`HTTP_CODE = 410`). -/
def mkDoesNotExistError (format : String) (args : List String) : FmtError :=
  ⟨.doesNotExist, 410, format, renderFormat format args⟩

/-- `FormattableError.formatWith(...args)`: builds
`new FormattableError(this.format, ...args)` — whose runtime class is the
base `FormattableError` class — then copies `HTTP_CODE` onto it. -/
def formatWith (e : FmtError) (args : List String) : FmtError :=
  { mkFormattableError e.format args with httpCode := e.httpCode }

/-- A thrown value as the router sees it: a `FormattableError` (or
subclass) instance, or a plain `Error` carrying only a message and no
`HTTP_CODE` field. -/
inductive Thrown where
  | fmt : FmtError → Thrown
  | plain : String → Thrown
  deriving DecidableEq, Repr

/-- `err instanceof etype` for a thrown value. -/
def thrownInstanceOf (e : Thrown) (d : ErrClass) : Bool :=
  match e with
  | .fmt f => instanceOf f.cls d
  | .plain _ => d = .error

/-- `Router.handleError`: walk the registered `(class, handler)` pairs
and apply the first whose class matches the error; return the error
unchanged when none matches.  (The framework starts with an empty
registry; registrations live outside the framework source.) -/
def handleError (handlers : List (ErrClass × (Thrown → Thrown))) (err : Thrown) : Thrown :=
  match handlers with
  | [] => err
  | (etype, handler) :: rest =>
    if thrownInstanceOf err etype then handler err else handleError rest err

/-- The status chosen by `makeRoute`'s catch block:
`res.status(error.HTTP_CODE ?? 500)` after the handler chain. -/
def routeStatus (handlers : List (ErrClass × (Thrown → Thrown))) (err : Thrown) : Nat :=
  match handleError handlers err with
  | .fmt f => f.httpCode
  | .plain _ => 500

/-! ## Generic document store (`framework/doc.ts`)

`DocCollection` keeps a process-wide static set `collectionNames` of
collection names, consulted by the constructor.  The constructor throws
when the name is in the set and otherwise binds the collection; the
source never inserts the name into the set. -/

/-- The `DocCollection` constructor, acting on the static
`collectionNames` registry.  Returns the registry as left after the
construction; note the source adds nothing to it. -/
def docCollectionCtor (collectionNames : List String) (name : String) :
    Except String (List String) :=
  if name ∈ collectionNames then
    .error ("Collection " ++ name ++ " already exists!")
  else
    .ok collectionNames

/-- A stored document: the identifier and the two store-owned timestamps
of `BaseDoc`, plus the schema-specific fields. -/
structure MongoDoc (α : Type) where
  oid : Nat
  dateCreated : Nat
  dateUpdated : Nat
  fields : α
  deriving DecidableEq, Repr

/-- A caller-supplied `Partial<Schema>` record: the schema-specific
fields together with optionally present internal fields (`_id`,
`dateCreated`, `dateUpdated`). -/
structure PartialDoc (α : Type) where
  fields : α
  oid : Option Nat
  dateCreated : Option Nat
  dateUpdated : Option Nat
  deriving DecidableEq, Repr

/-- The state of one collection: documents in insertion order and a
counter supplying the next generated `ObjectId`. -/
structure Coll (α : Type) where
  docs : List (MongoDoc α)
  nextId : Nat
  deriving DecidableEq, Repr

/-- `DocCollection.withoutInternal`: copy the item and delete `_id`,
`dateCreated` and `dateUpdated`. -/
def withoutInternal {α : Type} (item : PartialDoc α) : PartialDoc α :=
  { item with oid := none, dateCreated := none, dateUpdated := none }

/-- `DocCollection.createOne(item)`: strip the internal fields, stamp
`dateCreated` and `dateUpdated` to now, insert (the insert generates a
fresh `_id` since none is present), and return the inserted id.  The
source calls `new Date()` twice in succession; both reads are modelled
by the single clock value `now`. -/
def createOne {α : Type} (c : Coll α) (now : Nat) (item : PartialDoc α) :
    Nat × Coll α :=
  let safe := withoutInternal item
  let safe := { safe with dateCreated := some now, dateUpdated := some now }
  let newId := safe.oid.getD c.nextId
  let doc : MongoDoc α :=
    { oid := newId
      dateCreated := safe.dateCreated.getD now
      dateUpdated := safe.dateUpdated.getD now
      fields := safe.fields }
  (newId, { docs := c.docs ++ [doc], nextId := c.nextId + 1 })

/-! ## Authenticating (`concepts/authenticating.ts`)

One collection of user documents.  `readOne` on a filter returns the
first matching document in collection order. -/

/-- A `UserDoc`: base fields plus `username` and `password`. -/
structure UserDoc where
  oid : Nat
  dateCreated : Nat
  dateUpdated : Nat
  username : String
  password : String
  deriving DecidableEq, Repr

/-- The users collection of one `AuthenticatingConcept` instance. -/
structure AuthState where
  users : List UserDoc
  nextId : Nat
  deriving DecidableEq, Repr

/-- The empty users collection. -/
def emptyAuth : AuthState := ⟨[], 0⟩

/-- A user record as returned to callers: when the `password` key has
been removed by `redactPassword`, the field is `none`. -/
structure UserView where
  oid : Nat
  dateCreated : Nat
  dateUpdated : Nat
  username : String
  password : Option String
  deriving DecidableEq, Repr

/-- The full user document, password key included. -/
def viewOf (u : UserDoc) : UserView :=
  ⟨u.oid, u.dateCreated, u.dateUpdated, u.username, some u.password⟩

/-- `redactPassword`: destructure away the `password` key. -/
def redactPassword (u : UserDoc) : UserView :=
  ⟨u.oid, u.dateCreated, u.dateUpdated, u.username, none⟩

/-- `readOne({ username })`. -/
def findByUsername (s : AuthState) (username : String) : Option UserDoc :=
  s.users.find? (fun u => u.username == username)

/-- `readOne({ _id })`. -/
def findById (s : AuthState) (oid : Nat) : Option UserDoc :=
  s.users.find? (fun u => u.oid == oid)

/-- `assertUsernameUnique`: throws `NotAllowedError` when a user with
the username exists. -/
def assertUsernameUnique (s : AuthState) (username : String) : Except FmtError Unit :=
  match findByUsername s username with
  | some _ =>
    .error (mkNotAllowedError
      ("User with username " ++ username ++ " already exists!") [])
  | none => .ok ()

/-- `assertGoodCredentials`: `BadValuesError` on an empty username or
password (JS falsiness of the empty string), then the uniqueness
assertion. -/
def assertGoodCredentials (s : AuthState) (username password : String) :
    Except FmtError Unit :=
  if username = "" ∨ password = "" then
    .error (mkBadValuesError "Username and password must be non-empty!" [])
  else
    assertUsernameUnique s username

/-- `AuthenticatingConcept.create`: assert the credentials, insert the
`{ username, password }` item (with the effect `createOne` has on an
item carrying no internal fields: fresh `_id`, both timestamps stamped
to now), and return the freshly read full user document — `readOne({ _id })`
with no redaction — together with the new state. -/
def authCreate (s : AuthState) (now : Nat) (username password : String) :
    Except FmtError (Option UserView × AuthState) := do
  let _ ← assertGoodCredentials s username password
  let doc : UserDoc := ⟨s.nextId, now, now, username, password⟩
  let s2 : AuthState := ⟨s.users ++ [doc], s.nextId + 1⟩
  .ok ((findById s2 doc.oid).map viewOf, s2)

/-- `getUserById`: `NotFoundError` when absent, otherwise the redacted
record. -/
def getUserById (s : AuthState) (oid : Nat) : Except FmtError UserView :=
  match findById s oid with
  | none => .error (mkNotFoundError "User not found!" [])
  | some u => .ok (redactPassword u)

/-- `getUserByUsername`: `NotFoundError` when absent, otherwise the
redacted record. -/
def getUserByUsername (s : AuthState) (username : String) : Except FmtError UserView :=
  match findByUsername s username with
  | none => .error (mkNotFoundError "User not found!" [])
  | some u => .ok (redactPassword u)

/-- `getUsers(username?)`: the empty filter when the argument is absent
or falsy, else filter by username; redact every record. -/
def getUsers (s : AuthState) (username : Option String) : List UserView :=
  let filtered :=
    match username with
    | some u => if u = "" then s.users else s.users.filter (fun d => d.username == u)
    | none => s.users
  filtered.map redactPassword

/-- `authenticate`: `readOne({ username, password })`; `NotAllowedError`
when no user matches both, otherwise the matching user's `_id`. -/
def authenticate (s : AuthState) (username password : String) : Except FmtError Nat :=
  match s.users.find? (fun u => u.username == username && u.password == password) with
  | none => .error (mkNotAllowedError "Username or password is incorrect." [])
  | some u => .ok u.oid

/-! ## Graphing (`concepts/webapping.ts`, `GraphingConcept`)

One collection of `GraphDoc`s.  `updateOne` rewrites the first document
matching the filter and is a no-op when none matches; `deleteOne`
removes the first match. -/

/-- A `GraphDoc`: base fields plus `item`, `owner` and `neighbors`. -/
structure GraphDoc where
  oid : Nat
  dateCreated : Nat
  dateUpdated : Nat
  item : Nat
  owner : Nat
  neighbors : List Nat
  deriving DecidableEq, Repr

/-- `updateOne(filter, f)`: apply `f` to the first document satisfying
`p`, leave the rest untouched (no-op when nothing matches). -/
def updateFirst (p : GraphDoc → Bool) (f : GraphDoc → GraphDoc) :
    List GraphDoc → List GraphDoc
  | [] => []
  | d :: ds => if p d then f d :: ds else d :: updateFirst p f ds

/-- `$addToSet`: append when absent. -/
def addToSet (x : Nat) (l : List Nat) : List Nat :=
  if x ∈ l then l else l ++ [x]

/-- `$pull`: remove every occurrence. -/
def pull (x : Nat) (l : List Nat) : List Nat :=
  l.filter (fun y => y ≠ x)

/-- `updateOne({ item: x }, ...)` with a modifier `g` on the
`neighbors` array. -/
def updItem (x : Nat) (g : List Nat → List Nat) (s : List GraphDoc) : List GraphDoc :=
  updateFirst (fun d => d.item == x) (fun d => { d with neighbors := g d.neighbors }) s

/-- `GraphingConcept.addNode(item, owner)`: `createOne({ item, owner,
neighbors: [] })`. -/
def addNode (s : List GraphDoc) (newId now item owner : Nat) : List GraphDoc :=
  s ++ [⟨newId, now, now, item, owner, []⟩]

/-- `GraphingConcept.addEdge(from, to)`: `$addToSet` `to` into the
`from` node's neighbors, then `$addToSet` `from` into the `to` node's
neighbors. -/
def addEdge (s : List GraphDoc) (f t : Nat) : List GraphDoc :=
  updItem t (addToSet f) (updItem f (addToSet t) s)

/-- `GraphingConcept.deleteNode(item)`: `deleteOne({ item })` — remove
the first document whose `item` matches, touching nothing else. -/
def deleteNode (s : List GraphDoc) (item : Nat) : List GraphDoc :=
  match s with
  | [] => []
  | d :: ds => if d.item == item then ds else d :: deleteNode ds item

/-- `GraphingConcept.deleteEdge(from, to)`: `$pull` `to` from the `from`
node's neighbors, then `$pull` `from` from the `to` node's neighbors. -/
def deleteEdge (s : List GraphDoc) (f t : Nat) : List GraphDoc :=
  updItem t (pull f) (updItem f (pull t) s)

/-- `GraphingConcept.updateEdgesForUserNode(user, item, connected)`:
snapshot the user's nodes, then for each snapshot node other than
`item`, apply `addEdge(item, node.item); addEdge(node.item, item)` when
the node's item is in `connected`, else the two `deleteEdge` calls. -/
def updateEdgesForUserNode (s : List GraphDoc) (user item : Nat)
    (connected : List Nat) : List GraphDoc :=
  let nodes := s.filter (fun d => d.owner == user)
  nodes.foldl
    (fun st node =>
      if node.item ≠ item then
        if node.item ∈ connected then
          addEdge (addEdge st item node.item) node.item item
        else
          deleteEdge (deleteEdge st item node.item) node.item item
      else st)
    s

/-- One call in a sequence of the three edge-maintenance operations of
claim C2. -/
inductive GraphOp where
  | addE (f t : Nat)
  | delE (f t : Nat)
  | upd (user item : Nat) (connected : List Nat)
  deriving DecidableEq, Repr

/-- Apply one operation. -/
def applyOp (s : List GraphDoc) : GraphOp → List GraphDoc
  | .addE f t => addEdge s f t
  | .delE f t => deleteEdge s f t
  | .upd user item connected => updateEdgesForUserNode s user item connected

/-- Apply a sequence of operations, first element first. -/
def applyOps (ops : List GraphOp) (s : List GraphDoc) : List GraphDoc :=
  ops.foldl applyOp s

/-- Edge symmetry: whenever node `A` lists node `B`'s item among its
neighbors, node `B` lists `A`'s item. -/
def symmetric (s : List GraphDoc) : Prop :=
  ∀ A ∈ s, ∀ B ∈ s, B.item ∈ A.neighbors → A.item ∈ B.neighbors

instance (s : List GraphDoc) : Decidable (symmetric s) := by
  unfold symmetric; infer_instance

/-- Every neighbor reference names an existing node. -/
def refsExist (s : List GraphDoc) : Prop :=
  ∀ A ∈ s, ∀ n ∈ A.neighbors, ∃ B ∈ s, B.item = n

instance (s : List GraphDoc) : Decidable (refsExist s) := by
  unfold refsExist; infer_instance

/-- The node items are pairwise distinct (the 1:1 node-per-item shape
of the data model). -/
def itemsNodup (s : List GraphDoc) : Prop :=
  (s.map (fun d => d.item)).Nodup

instance (s : List GraphDoc) : Decidable (itemsNodup s) := by
  unfold itemsNodup; infer_instance

/-! ## Tagging (`concepts/tagging.ts`)

Only the pieces `topTagsForItems` needs: the collection of `TagDoc`s,
the `$in` read, and the aggregation. -/

/-- A `TagDoc`: base fields plus `item` and `tags`. -/
structure TagDoc where
  oid : Nat
  dateCreated : Nat
  dateUpdated : Nat
  item : Nat
  tags : List String
  deriving DecidableEq, Repr

/-- One step of the `reduce`: `acc[t] = (acc[t] || 0) + 1` on a JS
object, i.e. an insertion-ordered association list — a fresh key is
appended, an existing key is incremented in place. -/
def bump : List (String × Nat) → String → List (String × Nat)
  | [], t => [(t, 1)]
  | (k, v) :: rest, t =>
    if k = t then (k, v + 1) :: rest else (k, v) :: bump rest t

/-- The `reduce` of `topTagsForItems`: fold `bump` over every tag of
every matched document, in document order. -/
def tagCounts (matched : List TagDoc) : List (String × Nat) :=
  matched.foldl (fun acc d => d.tags.foldl bump acc) []

/-- Insert a pair into a list sorted by count descending, after every
pair of count ≥ its own (the placement a stable sort gives it). -/
def insertDesc (x : String × Nat) : List (String × Nat) → List (String × Nat)
  | [] => [x]
  | y :: ys => if x.2 ≤ y.2 then y :: insertDesc x ys else x :: y :: ys

/-- The stable `sort((a, b) => b[1] - a[1])` of `Object.entries`,
realised as a stable insertion sort. -/
def sortDesc (l : List (String × Nat)) : List (String × Nat) :=
  l.foldl (fun acc x => insertDesc x acc) []

/-- `TaggingConcept.topTagsForItems(items, limit)`: read the documents
whose `item` is in `items`, aggregate tag frequencies, sort by count
descending (stable), and keep the first `limit` pairs. -/
def topTagsForItems (docs : List TagDoc) (items : List Nat) (limit : Nat) :
    List (String × Nat) :=
  let matched := docs.filter (fun d => decide (d.item ∈ items))
  (sortDesc (tagCounts matched)).take limit

/-- The tag set the store associates to an item: the `tags` of its
(first) tag document, empty when the item has none. -/
def itemTags (docs : List TagDoc) (i : Nat) : List String :=
  ((docs.find? (fun d => d.item == i)).map (fun d => d.tags)).getD []

/-! ## Theorems -/

/-- A chain in which no handler matches leaves the error unchanged. -/
theorem handleError_no_match (handlers : List (ErrClass × (Thrown → Thrown)))
    (err : Thrown) (h : ∀ p ∈ handlers, thrownInstanceOf err p.1 = false) :
    handleError handlers err = err := by
  induction handlers with
  | nil => rfl
  | cons p rest ih =>
    have hp := h p (List.mem_cons_self p rest)
    simp only [handleError, hp]
    simp only [Bool.false_eq_true, if_false]
    exact ih fun q hq => h q (List.mem_cons_of_mem p hq)

/-- C1: the spec requires construction over an already-bound collection
name to fail fast, and the constructor indeed throws when the name is in
the static `collectionNames` set — but nothing ever inserts a name into
that set, so the registry stays empty and a second construction over the
same name succeeds silently.  The theorem evaluates the code at the
failing input: two constructions of the name `users`, both succeeding,
the registry unchanged. -/
theorem docCollectionCtor_second_construction_succeeds :
    docCollectionCtor [] "users" = Except.ok [] ∧
    (match docCollectionCtor [] "users" with
     | Except.ok r => docCollectionCtor r "users" = Except.ok r
     | Except.error _ => False) := by
  constructor
  · rfl
  · rfl

/-- C3 counterexample: `formatWith` on a `BadValuesError` instance
returns an object whose runtime class is the base `FormattableError`
class, so it is not of the same kind as the original and fails
`instanceof BadValuesError`. -/
theorem formatWith_changes_class :
    (formatWith (mkBadValuesError "Signature \x7b0\x7d is invalid!" ["k"]) ["m"]).cls ≠
      ErrClass.badValues ∧
    thrownInstanceOf
      (Thrown.fmt (formatWith (mkBadValuesError "Signature \x7b0\x7d is invalid!" ["k"]) ["m"]))
      ErrClass.badValues = false := by
  constructor
  · intro h
    exact ErrClass.noConfusion h
  · rfl

/-- C3 amended: for every `FormattableError` instance and argument list,
`formatWith` returns an error with the same HTTP status code whose
message is the original template re-rendered with the new positional
arguments — but the returned error is an instance of the base
`FormattableError` class rather than the original subclass, so it only
matches handlers registered for `FormattableError` or `Error`. -/
theorem formatWith_spec (e : FmtError) (args : List String) :
    (formatWith e args).httpCode = e.httpCode ∧
    (formatWith e args).format = e.format ∧
    (formatWith e args).message = renderFormat e.format args ∧
    (formatWith e args).cls = ErrClass.formattable := by
  exact ⟨rfl, rfl, rfl, rfl⟩

/-- C4: the response status is the failure kind's class-level code —
BadValues 400, Unauthenticated 401, NotAllowed 403, NotFound 404,
WrongUser 409, DoesNotExist 410 — while a base `FormattableError` and a
plain `Error` (both outside the taxonomy) produce 500; and when no
registered handler matches the thrown error the chain is inert, so the
status is determined by the error alone. -/
theorem routeStatus_by_kind :
    (∀ format args,
      routeStatus [] (Thrown.fmt (mkBadValuesError format args)) = 400 ∧
      routeStatus [] (Thrown.fmt (mkUnauthenticatedError format args)) = 401 ∧
      routeStatus [] (Thrown.fmt (mkNotAllowedError format args)) = 403 ∧
      routeStatus [] (Thrown.fmt (mkNotFoundError format args)) = 404 ∧
      routeStatus [] (Thrown.fmt (mkWrongUserError format args)) = 409 ∧
      routeStatus [] (Thrown.fmt (mkDoesNotExistError format args)) = 410 ∧
      routeStatus [] (Thrown.fmt (mkFormattableError format args)) = 500) ∧
    (∀ msg, routeStatus [] (Thrown.plain msg) = 500) ∧
    (∀ handlers err, (∀ p ∈ handlers, thrownInstanceOf err p.1 = false) →
      routeStatus handlers err = routeStatus [] err) := by
  refine ⟨fun format args => ⟨rfl, rfl, rfl, rfl, rfl, rfl, rfl⟩, fun msg => rfl, ?_⟩
  intro handlers err h
  unfold routeStatus
  rw [handleError_no_match handlers err h]
  rfl

/-- C4 witness: the unmatched-chain conjunct at a concrete chain (a
handler registered for `NotFoundError`) and a concrete `BadValuesError`. -/
theorem routeStatus_by_kind_witness :
    (∀ p ∈ [(ErrClass.notFound, fun e : Thrown => e)],
      thrownInstanceOf (Thrown.fmt (mkBadValuesError "bad" [])) p.1 = false) ∧
    routeStatus [(ErrClass.notFound, fun e : Thrown => e)]
        (Thrown.fmt (mkBadValuesError "bad" [])) =
      routeStatus [] (Thrown.fmt (mkBadValuesError "bad" [])) := by
  refine ⟨by decide, ?_⟩
  exact routeStatus_by_kind.2.2 [(ErrClass.notFound, fun e : Thrown => e)]
    (Thrown.fmt (mkBadValuesError "bad" [])) (by decide)

/-- C7: `createOne` returns the freshly generated identifier and appends
one document whose schema fields are exactly the caller's, whose two
timestamps are both stamped to now, and whose identifier is the
generated one; any caller-supplied `_id`, `dateCreated` or `dateUpdated`
is stripped, so the result does not depend on them.  No validation
happens: the operation is total and always inserts. -/
theorem createOne_spec {α : Type} (c : Coll α) (now : Nat) (item : PartialDoc α) :
    (createOne c now item).1 = c.nextId ∧
    (createOne c now item).2.docs = c.docs ++ [⟨c.nextId, now, now, item.fields⟩] ∧
    (createOne c now item).2.nextId = c.nextId + 1 ∧
    (∀ oid dateCreated dateUpdated,
      createOne c now ⟨item.fields, oid, dateCreated, dateUpdated⟩ = createOne c now item) := by
  exact ⟨rfl, rfl, rfl, fun oid dateCreated dateUpdated => rfl⟩

/-- `getUserById` never returns a record with the password key. -/
theorem getUserById_redacts (s : AuthState) (i : Nat) (view : UserView)
    (h : getUserById s i = Except.ok view) : view.password = none := by
  unfold getUserById at h
  cases hf : findById s i with
  | none => rw [hf] at h; exact Except.noConfusion h
  | some u =>
    rw [hf] at h
    cases h
    rfl

/-- `getUserByUsername` never returns a record with the password key. -/
theorem getUserByUsername_redacts (s : AuthState) (un : String) (view : UserView)
    (h : getUserByUsername s un = Except.ok view) : view.password = none := by
  unfold getUserByUsername at h
  cases hf : findByUsername s un with
  | none => rw [hf] at h; exact Except.noConfusion h
  | some u =>
    rw [hf] at h
    cases h
    rfl

/-- `getUsers` never returns a record with the password key. -/
theorem getUsers_redacts (s : AuthState) (un : Option String) (v : UserView)
    (h : v ∈ getUsers s un) : v.password = none := by
  unfold getUsers at h
  obtain ⟨u, _, hv⟩ := List.mem_map.mp h
  rw [← hv]
  rfl

/-- C9: `create` hands back the freshly read full stored record — the
plaintext password field included — although `getUserById`,
`getUserByUsername` and `getUsers` all strip the password field from
every record they return. -/
theorem authCreate_returns_password (s : AuthState) (now : Nat) (u p : String)
    (ret : Option UserView) (s2 : AuthState)
    (hfresh : ∀ d ∈ s.users, d.oid ≠ s.nextId)
    (h : authCreate s now u p = Except.ok (ret, s2)) :
    (∃ v, ret = some v ∧ v.password = some p) ∧
    (∀ i view, getUserById s2 i = Except.ok view → view.password = none) ∧
    (∀ un view, getUserByUsername s2 un = Except.ok view → view.password = none) ∧
    (∀ un v, v ∈ getUsers s2 un → v.password = none) := by
  refine ⟨?_, fun i view hv => getUserById_redacts s2 i view hv,
    fun un view hv => getUserByUsername_redacts s2 un view hv,
    fun un v hv => getUsers_redacts s2 un v hv⟩
  unfold authCreate at h
  cases hg : assertGoodCredentials s u p with
  | error e => rw [hg] at h; exact Except.noConfusion h
  | ok v =>
    rw [hg] at h
    simp only [Bind.bind, Except.bind, Except.ok.injEq, Prod.mk.injEq] at h
    obtain ⟨hret, hs2⟩ := h
    subst hret
    subst hs2
    refine ⟨viewOf ⟨s.nextId, now, now, u, p⟩, ?_, rfl⟩
    unfold findById
    rw [List.find?_append]
    have hnone : (s.users.find? fun d => d.oid == s.nextId) = none := by
      apply List.find?_eq_none.mpr
      intro d hd
      simp only [beq_iff_eq]
      exact hfresh d hd
    rw [hnone]
    simp [List.find?]

/-- C9 witness: a concrete creation over the empty store. -/
theorem authCreate_returns_password_witness :
    (∀ d ∈ emptyAuth.users, d.oid ≠ emptyAuth.nextId) ∧
    ((∃ v, some (viewOf (UserDoc.mk 0 5 5 "alice" "pw")) = some v ∧ v.password = some "pw") ∧
     (∀ i view, getUserById (AuthState.mk [UserDoc.mk 0 5 5 "alice" "pw"] 1) i = Except.ok view →
        view.password = none) ∧
     (∀ un view,
        getUserByUsername (AuthState.mk [UserDoc.mk 0 5 5 "alice" "pw"] 1) un = Except.ok view →
        view.password = none) ∧
     (∀ un v, v ∈ getUsers (AuthState.mk [UserDoc.mk 0 5 5 "alice" "pw"] 1) un →
        v.password = none)) :=
  ⟨by decide,
   authCreate_returns_password emptyAuth 5 "alice" "pw"
     (some (viewOf (UserDoc.mk 0 5 5 "alice" "pw")))
     (AuthState.mk [UserDoc.mk 0 5 5 "alice" "pw"] 1)
     (by decide) (by rfl)⟩

/-- C10: `deleteNode` removes exactly the (first) node document whose
`item` equals the given id: the state decomposes as the prefix before
that document, unchanged, followed by the suffix after it, unchanged —
so every other node keeps its `neighbors` array verbatim, and any node
that listed the deleted item still lists it.  When the deleted node was
the only one with that item, a remaining reference to it is dangling:
`refsExist` fails on the new state. -/
theorem deleteNode_frame (s₁ s₂ : List GraphDoc) (m : GraphDoc) (i : Nat)
    (hmi : m.item = i) (hs₁ : ∀ d ∈ s₁, d.item ≠ i) :
    deleteNode (s₁ ++ m :: s₂) i = s₁ ++ s₂ ∧
    (∀ d ∈ s₁ ++ s₂, d ∈ s₁ ++ m :: s₂) ∧
    ((∀ d ∈ s₂, d.item ≠ i) → (∃ d ∈ s₁ ++ s₂, i ∈ d.neighbors) →
      ¬ refsExist (s₁ ++ s₂)) := by
  refine ⟨?_, ?_, ?_⟩
  · induction s₁ with
    | nil => simp [deleteNode, hmi]
    | cons a as ih =>
      have ha : a.item ≠ i := hs₁ a (List.mem_cons_self a as)
      have ha' : (a.item == i) = false := by simp [ha]
      simp only [List.cons_append, deleteNode, ha', Bool.false_eq_true, if_false,
        List.cons.injEq, true_and]
      exact ih fun d hd => hs₁ d (List.mem_cons_of_mem a hd)
  · intro d hd
    rcases List.mem_append.mp hd with h | h
    · exact List.mem_append.mpr (Or.inl h)
    · exact List.mem_append.mpr (Or.inr (List.mem_cons_of_mem m h))
  · intro hs₂ ⟨d, hd, hn⟩ href
    obtain ⟨B, hB, hBi⟩ := href d hd i hn
    rcases List.mem_append.mp hB with h | h
    · exact hs₁ B h hBi
    · exact hs₂ B h hBi

/-- C10 witness: deleting node 2 from the symmetric two-node state
leaves node 1 still listing 2 as a neighbor, a dangling reference. -/
theorem deleteNode_frame_witness :
    ((GraphDoc.mk 1 0 0 2 0 [1]).item = 2 ∧
     (∀ d ∈ [GraphDoc.mk 0 0 0 1 0 [2]], d.item ≠ 2)) ∧
    (deleteNode ([GraphDoc.mk 0 0 0 1 0 [2]] ++ GraphDoc.mk 1 0 0 2 0 [1] :: []) 2 =
        [GraphDoc.mk 0 0 0 1 0 [2]] ++ [] ∧
      (∀ d ∈ [GraphDoc.mk 0 0 0 1 0 [2]] ++ ([] : List GraphDoc),
        d ∈ [GraphDoc.mk 0 0 0 1 0 [2]] ++ GraphDoc.mk 1 0 0 2 0 [1] :: []) ∧
      ((∀ d ∈ ([] : List GraphDoc), d.item ≠ 2) →
        (∃ d ∈ [GraphDoc.mk 0 0 0 1 0 [2]] ++ ([] : List GraphDoc), 2 ∈ d.neighbors) →
        ¬ refsExist ([GraphDoc.mk 0 0 0 1 0 [2]] ++ []))) :=
  ⟨⟨by decide, by decide⟩,
   deleteNode_frame [GraphDoc.mk 0 0 0 1 0 [2]] [] (GraphDoc.mk 1 0 0 2 0 [1]) 2
     (by decide) (by decide)⟩

/-- C5: over the empty user store, `create` with a non-empty username
and password succeeds, and `authenticate` with the same credentials on
the resulting store succeeds and returns the created user's `_id`; and
in any store where a username determines the password (the uniqueness
invariant `create` maintains), `authenticate` with that username and any
other password throws `NotAllowedError`. -/
theorem create_then_authenticate (now : Nat) (u p : String)
    (hu : u ≠ "") (hp : p ≠ "")
    (ret : Option UserView) (s2 : AuthState)
    (h : authCreate emptyAuth now u p = Except.ok (ret, s2)) :
    (∃ v, ret = some v ∧ authenticate s2 u p = Except.ok v.oid) ∧
    (∀ (s : AuthState) (d : UserDoc) (q : String), d ∈ s.users →
      (∀ d' ∈ s.users, d'.username = d.username → d'.password = d.password) →
      q ≠ d.password →
      ∃ e, authenticate s d.username q = Except.error e ∧
        e.cls = ErrClass.notAllowed) := by
  constructor
  · have hnor : ¬(u = "" ∨ p = "") := fun hor => hor.elim hu hp
    unfold authCreate assertGoodCredentials at h
    rw [if_neg hnor] at h
    have hun : assertUsernameUnique emptyAuth u = Except.ok () := rfl
    rw [hun] at h
    simp only [Bind.bind, Except.bind, Except.ok.injEq, Prod.mk.injEq] at h
    obtain ⟨hret, hs2⟩ := h
    subst hret
    subst hs2
    refine ⟨viewOf ⟨emptyAuth.nextId, now, now, u, p⟩, ?_, ?_⟩
    · simp [findById, List.find?, emptyAuth]
    · simp [authenticate, List.find?, emptyAuth, viewOf]
  · intro s d q hd huniq hq
    refine ⟨mkNotAllowedError "Username or password is incorrect." [], ?_, rfl⟩
    unfold authenticate
    have hfind : (s.users.find? fun x => x.username == d.username && x.password == q) = none := by
      apply List.find?_eq_none.mpr
      intro x hx
      simp only [Bool.and_eq_true, beq_iff_eq, not_and]
      intro hxu hxq
      exact hq ((huniq x hx hxu).symm.trans hxq).symm
    rw [hfind]

/-- C5 witness: creating `alice`/`pw` over the empty store, then
authenticating. -/
theorem create_then_authenticate_witness :
    ("alice" ≠ "" ∧ "pw" ≠ "") ∧
    ((∃ v, some (viewOf (UserDoc.mk 0 5 5 "alice" "pw")) = some v ∧
        authenticate (AuthState.mk [UserDoc.mk 0 5 5 "alice" "pw"] 1) "alice" "pw" =
          Except.ok v.oid) ∧
     (∀ (s : AuthState) (d : UserDoc) (q : String), d ∈ s.users →
       (∀ d' ∈ s.users, d'.username = d.username → d'.password = d.password) →
       q ≠ d.password →
       ∃ e, authenticate s d.username q = Except.error e ∧
         e.cls = ErrClass.notAllowed)) :=
  ⟨⟨by decide, by decide⟩,
   create_then_authenticate 5 "alice" "pw" (by decide) (by decide)
     (some (viewOf (UserDoc.mk 0 5 5 "alice" "pw")))
     (AuthState.mk [UserDoc.mk 0 5 5 "alice" "pw"] 1) (by rfl)⟩

/-- C6: `create` throws `BadValuesError` on an empty username or
password; and after a successful creation of a username over a store not
containing it, a second `create` with the same username (and a non-empty
password, the empty case falling under the first clause) throws
`NotAllowedError` whatever the two passwords are, leaving the store with
exactly one user of that username. -/
theorem create_duplicate_rejected :
    (∀ (s : AuthState) (now : Nat) (u p : String), u = "" ∨ p = "" →
      ∃ e, authCreate s now u p = Except.error e ∧ e.cls = ErrClass.badValues) ∧
    (∀ (s : AuthState) (now1 now2 : Nat) (u p1 p2 : String)
       (ret : Option UserView) (s2 : AuthState),
      (∀ d ∈ s.users, d.username ≠ u) →
      p2 ≠ "" →
      authCreate s now1 u p1 = Except.ok (ret, s2) →
      (∃ e, authCreate s2 now2 u p2 = Except.error e ∧ e.cls = ErrClass.notAllowed) ∧
      (s2.users.filter fun d => d.username == u).length = 1) := by
  constructor
  · intro s now u p hor
    refine ⟨mkBadValuesError "Username and password must be non-empty!" [], ?_, rfl⟩
    unfold authCreate assertGoodCredentials
    rw [if_pos hor]
    rfl
  · intro s now1 now2 u p1 p2 ret s2 husers hp2 h
    by_cases hor : u = "" ∨ p1 = ""
    · exfalso
      unfold authCreate assertGoodCredentials at h
      rw [if_pos hor] at h
      simp [Bind.bind, Except.bind] at h
    · push_neg at hor
      obtain ⟨hu, hp1⟩ := hor
      unfold authCreate assertGoodCredentials at h
      rw [if_neg (fun hor2 => hor2.elim hu hp1)] at h
      have hfind : findByUsername s u = none := by
        apply List.find?_eq_none.mpr
        intro d hd
        simp only [beq_iff_eq]
        exact husers d hd
      unfold assertUsernameUnique at h
      rw [hfind] at h
      simp only [Bind.bind, Except.bind, Except.ok.injEq, Prod.mk.injEq] at h
      obtain ⟨hret, hs2⟩ := h
      subst hs2
      constructor
      · refine ⟨mkNotAllowedError ("User with username " ++ u ++ " already exists!") [], ?_, rfl⟩
        unfold authCreate assertGoodCredentials
        rw [if_neg (fun hor2 => hor2.elim hu hp2)]
        unfold assertUsernameUnique
        have hfound : findByUsername
            ⟨s.users ++ [⟨s.nextId, now1, now1, u, p1⟩], s.nextId + 1⟩ u =
            some ⟨s.nextId, now1, now1, u, p1⟩ := by
          unfold findByUsername at hfind ⊢
          rw [List.find?_append, hfind]
          simp [List.find?]
        rw [hfound]
        rfl
      · show ((s.users ++ [(⟨s.nextId, now1, now1, u, p1⟩ : UserDoc)]).filter
            fun d => d.username == u).length = 1
        rw [List.filter_append]
        have h1 : (s.users.filter fun d => d.username == u) = [] := by
          apply List.filter_eq_nil_iff.mpr
          intro d hd
          simp only [beq_iff_eq]
          exact husers d hd
        rw [h1]
        simp [List.filter]

/-- C6 witness: an empty-username creation rejected with BadValues, and
a duplicate `bob` rejected with NotAllowed after one successful
creation. -/
theorem create_duplicate_rejected_witness :
    ((("" : String) = "" ∨ ("x" : String) = "") ∧
     (∃ e, authCreate emptyAuth 0 "" "x" = Except.error e ∧
        e.cls = ErrClass.badValues)) ∧
    ((∀ d ∈ emptyAuth.users, d.username ≠ "bob") ∧ ("b" : String) ≠ "" ∧
     ((∃ e, authCreate (AuthState.mk [UserDoc.mk 0 3 3 "bob" "a"] 1) 4 "bob" "b" =
          Except.error e ∧ e.cls = ErrClass.notAllowed) ∧
      ((AuthState.mk [UserDoc.mk 0 3 3 "bob" "a"] 1).users.filter
          fun d => d.username == "bob").length = 1)) :=
  ⟨⟨Or.inl rfl, create_duplicate_rejected.1 emptyAuth 0 "" "x" (Or.inl rfl)⟩,
   ⟨by decide, by decide,
    create_duplicate_rejected.2 emptyAuth 3 4 "bob" "a" "b"
      (some (viewOf (UserDoc.mk 0 3 3 "bob" "a")))
      (AuthState.mk [UserDoc.mk 0 3 3 "bob" "a"] 1)
      (by decide) (by decide) (by rfl)⟩⟩

/-- `$addToSet` membership. -/
theorem mem_addToSet {x y : Nat} {l : List Nat} : y ∈ addToSet x l ↔ y ∈ l ∨ y = x := by
  unfold addToSet
  split
  · case isTrue hx =>
    constructor
    · exact Or.inl
    · rintro (h | rfl)
      · exact h
      · exact hx
  · case isFalse hx => simp [List.mem_append]

/-- `$pull` membership. -/
theorem mem_pull {x y : Nat} {l : List Nat} : y ∈ pull x l ↔ y ∈ l ∧ y ≠ x := by
  unfold pull
  simp [List.mem_filter]

/-- `updateOne` on a neighbors array never touches the `item` column. -/
theorem updItem_map_item (x : Nat) (g : List Nat → List Nat) (s : List GraphDoc) :
    (updItem x g s).map (fun d => d.item) = s.map (fun d => d.item) := by
  induction s with
  | nil => rfl
  | cons a as ih =>
    unfold updItem updateFirst
    split
    · simp
    · simpa using ih

/-- With pairwise-distinct items, every document of an `updItem` result
arises from a unique source document: untouched when its item differs
from the filter, with the modifier applied when it matches. -/
theorem mem_updItem {x : Nat} {g : List Nat → List Nat} {s : List GraphDoc}
    (hnd : itemsNodup s) {d' : GraphDoc} (h : d' ∈ updItem x g s) :
    ∃ d ∈ s, (d.item ≠ x ∧ d' = d) ∨
      (d.item = x ∧ d' = { d with neighbors := g d.neighbors }) := by
  induction s with
  | nil => simp [updItem, updateFirst] at h
  | cons a as ih =>
    have hna : a.item ∉ as.map (fun d => d.item) := (List.nodup_cons.mp hnd).1
    have hnd' : itemsNodup as := (List.nodup_cons.mp hnd).2
    unfold updItem updateFirst at h
    by_cases hax : a.item = x
    · rw [if_pos (by simp [hax])] at h
      rcases List.mem_cons.mp h with rfl | hmem
      · exact ⟨a, List.mem_cons_self a as, Or.inr ⟨hax, rfl⟩⟩
      · refine ⟨d', List.mem_cons_of_mem a hmem, Or.inl ⟨?_, rfl⟩⟩
        intro hdx
        exact hna (by rw [hax, ← hdx]; exact List.mem_map_of_mem _ hmem)
    · rw [if_neg (by simp [hax])] at h
      rcases List.mem_cons.mp h with rfl | hmem
      · exact ⟨d', List.mem_cons_self d' as, Or.inl ⟨hax, rfl⟩⟩
      · obtain ⟨d, hd, hcase⟩ := ih hnd' hmem
        exact ⟨d, List.mem_cons_of_mem a hd, hcase⟩

/-- `addEdge` never touches the `item` column. -/
theorem addEdge_map_item (s : List GraphDoc) (f t : Nat) :
    (addEdge s f t).map (fun d => d.item) = s.map (fun d => d.item) := by
  unfold addEdge
  rw [updItem_map_item, updItem_map_item]

/-- `deleteEdge` never touches the `item` column. -/
theorem deleteEdge_map_item (s : List GraphDoc) (f t : Nat) :
    (deleteEdge s f t).map (fun d => d.item) = s.map (fun d => d.item) := by
  unfold deleteEdge
  rw [updItem_map_item, updItem_map_item]

/-- With pairwise-distinct items, each document after `addEdge s f t`
comes from a source document with the same item, its neighbors extended
with `t` when it is the `f` node and with `f` when it is the `t` node. -/
theorem mem_addEdge {s : List GraphDoc} (hnd : itemsNodup s) {f t : Nat} {d' : GraphDoc}
    (h : d' ∈ addEdge s f t) :
    ∃ d ∈ s, d'.item = d.item ∧
      ∀ y, y ∈ d'.neighbors ↔
        (y ∈ d.neighbors ∨ (d.item = f ∧ y = t) ∨ (d.item = t ∧ y = f)) := by
  have hnd1 : itemsNodup (updItem f (addToSet t) s) := by
    unfold itemsNodup
    rw [updItem_map_item]
    exact hnd
  obtain ⟨d1, hd1, hc1⟩ := mem_updItem hnd1 h
  obtain ⟨d, hd, hc⟩ := mem_updItem hnd hd1
  refine ⟨d, hd, ?_⟩
  rcases hc1 with ⟨hne1, rfl⟩ | ⟨heq1, rfl⟩ <;> rcases hc with ⟨hne, rfl⟩ | ⟨heq, rfl⟩
  · exact ⟨rfl, fun y => by simp [hne, hne1]⟩
  · simp only at hne1
    have hft : ¬ f = t := fun hft => hne1 (heq.trans hft)
    exact ⟨rfl, fun y => by simp [mem_addToSet, heq, hft]⟩
  · have htf : ¬ t = f := fun htf => hne (heq1.trans htf)
    exact ⟨rfl, fun y => by simp [mem_addToSet, hne, heq1, htf]⟩
  · simp only at heq1
    have hft : f = t := heq.symm.trans heq1
    subst hft
    refine ⟨rfl, fun y => by simp [mem_addToSet, heq]; try tauto⟩

/-- With pairwise-distinct items, each document after `deleteEdge s f t`
comes from a source document with the same item, its neighbors purged of
`t` when it is the `f` node and of `f` when it is the `t` node. -/
theorem mem_deleteEdge {s : List GraphDoc} (hnd : itemsNodup s) {f t : Nat} {d' : GraphDoc}
    (h : d' ∈ deleteEdge s f t) :
    ∃ d ∈ s, d'.item = d.item ∧
      ∀ y, y ∈ d'.neighbors ↔
        (y ∈ d.neighbors ∧ ¬(d.item = f ∧ y = t) ∧ ¬(d.item = t ∧ y = f)) := by
  have hnd1 : itemsNodup (updItem f (pull t) s) := by
    unfold itemsNodup
    rw [updItem_map_item]
    exact hnd
  obtain ⟨d1, hd1, hc1⟩ := mem_updItem hnd1 h
  obtain ⟨d, hd, hc⟩ := mem_updItem hnd hd1
  refine ⟨d, hd, ?_⟩
  rcases hc1 with ⟨hne1, rfl⟩ | ⟨heq1, rfl⟩ <;> rcases hc with ⟨hne, rfl⟩ | ⟨heq, rfl⟩
  · exact ⟨rfl, fun y => by simp [hne, hne1]⟩
  · simp only at hne1
    have hft : ¬ f = t := fun hft => hne1 (heq.trans hft)
    exact ⟨rfl, fun y => by simp [mem_pull, heq, hft]; try tauto⟩
  · have htf : ¬ t = f := fun htf => hne (heq1.trans htf)
    exact ⟨rfl, fun y => by simp [mem_pull, hne, heq1, htf]; try tauto⟩
  · simp only at heq1
    have hft : f = t := heq.symm.trans heq1
    subst hft
    refine ⟨rfl, fun y => by simp [mem_pull, heq]; try tauto⟩

/-- `addEdge` preserves symmetry over states with distinct items. -/
theorem addEdge_symmetric {s : List GraphDoc} (hnd : itemsNodup s)
    (hsym : symmetric s) (f t : Nat) : symmetric (addEdge s f t) := by
  intro A2 hA B2 hB hmem
  obtain ⟨A0, hA0, hAi, hAiff⟩ := mem_addEdge hnd hA
  obtain ⟨B0, hB0, hBi, hBiff⟩ := mem_addEdge hnd hB
  have h1 := (hAiff B2.item).mp hmem
  rw [hBi] at h1
  rw [hAi]
  apply (hBiff A0.item).mpr
  rcases h1 with h1 | ⟨hf, ht⟩ | ⟨ht, hf⟩
  · exact Or.inl (hsym A0 hA0 B0 hB0 h1)
  · exact Or.inr (Or.inr ⟨ht, hf⟩)
  · exact Or.inr (Or.inl ⟨hf, ht⟩)

/-- `deleteEdge` preserves symmetry over states with distinct items. -/
theorem deleteEdge_symmetric {s : List GraphDoc} (hnd : itemsNodup s)
    (hsym : symmetric s) (f t : Nat) : symmetric (deleteEdge s f t) := by
  intro A2 hA B2 hB hmem
  obtain ⟨A0, hA0, hAi, hAiff⟩ := mem_deleteEdge hnd hA
  obtain ⟨B0, hB0, hBi, hBiff⟩ := mem_deleteEdge hnd hB
  have h1 := (hAiff B2.item).mp hmem
  rw [hBi] at h1
  obtain ⟨hin, hn1, hn2⟩ := h1
  rw [hAi]
  apply (hBiff A0.item).mpr
  exact ⟨hsym A0 hA0 B0 hB0 hin,
    fun ⟨hbf, hat⟩ => hn2 ⟨hat, hbf⟩,
    fun ⟨hbt, haf⟩ => hn1 ⟨haf, hbt⟩⟩

/-- The invariant the edge operations preserve: distinct items plus
symmetric adjacency. -/
def goodGraph (s : List GraphDoc) : Prop :=
  itemsNodup s ∧ symmetric s

/-- `addEdge` preserves the invariant. -/
theorem addEdge_good {s : List GraphDoc} (h : goodGraph s) (f t : Nat) :
    goodGraph (addEdge s f t) := by
  refine ⟨?_, addEdge_symmetric h.1 h.2 f t⟩
  unfold itemsNodup
  rw [addEdge_map_item]
  exact h.1

/-- `deleteEdge` preserves the invariant. -/
theorem deleteEdge_good {s : List GraphDoc} (h : goodGraph s) (f t : Nat) :
    goodGraph (deleteEdge s f t) := by
  refine ⟨?_, deleteEdge_symmetric h.1 h.2 f t⟩
  unfold itemsNodup
  rw [deleteEdge_map_item]
  exact h.1

/-- A fold over any snapshot list whose step preserves a property
preserves it. -/
theorem foldl_preserve {β : Type} (P : List GraphDoc → Prop)
    (step : List GraphDoc → β → List GraphDoc)
    (hstep : ∀ st b, P st → P (step st b)) :
    ∀ (l : List β) (st : List GraphDoc), P st → P (l.foldl step st) := by
  intro l
  induction l with
  | nil => exact fun st h => h
  | cons b bs ih => exact fun st h => ih (step st b) (hstep st b h)

/-- `updateEdgesForUserNode` preserves the invariant: its body is a fold
of `addEdge`/`deleteEdge` pairs over the snapshot of the user's nodes. -/
theorem updateEdgesForUserNode_good {s : List GraphDoc} (h : goodGraph s)
    (user item : Nat) (connected : List Nat) :
    goodGraph (updateEdgesForUserNode s user item connected) := by
  unfold updateEdgesForUserNode
  apply foldl_preserve goodGraph _ _ _ s h
  intro st node hst
  by_cases h1 : node.item ≠ item
  · rw [if_pos h1]
    by_cases h2 : node.item ∈ connected
    · rw [if_pos h2]
      exact addEdge_good (addEdge_good hst item node.item) node.item item
    · rw [if_neg h2]
      exact deleteEdge_good (deleteEdge_good hst item node.item) node.item item
  · rw [if_neg h1]
    exact hst

/-- Every operation of the claimed sequence preserves the invariant. -/
theorem applyOp_good {s : List GraphDoc} (h : goodGraph s) (op : GraphOp) :
    goodGraph (applyOp s op) := by
  cases op with
  | addE f t => exact addEdge_good h f t
  | delE f t => exact deleteEdge_good h f t
  | upd user item connected => exact updateEdgesForUserNode_good h user item connected

/-- C2 counterexample: the claim as stated fails.  The starting state —
node item 1 plus two nodes sharing item 2, empty adjacency, reachable
because `addNode` never checks for an existing node with the same item —
is symmetric and has no dangling references, yet after the single call
`addEdge(1, 2)` the node of item 1 lists item 2 while the second node of
item 2 does not list item 1 (`updateOne` only rewrites the first match). -/
theorem graph_symmetry_counterexample :
    symmetric [GraphDoc.mk 0 0 0 1 0 [], GraphDoc.mk 1 0 0 2 0 [],
      GraphDoc.mk 2 0 0 2 0 []] ∧
    refsExist [GraphDoc.mk 0 0 0 1 0 [], GraphDoc.mk 1 0 0 2 0 [],
      GraphDoc.mk 2 0 0 2 0 []] ∧
    ¬ symmetric (applyOps [GraphOp.addE 1 2]
      [GraphDoc.mk 0 0 0 1 0 [], GraphDoc.mk 1 0 0 2 0 [],
        GraphDoc.mk 2 0 0 2 0 []]) := by
  refine ⟨by decide, by decide, by decide⟩

/-- C2 amended: starting from a graph state whose node items are
pairwise distinct (the 1:1 node-per-item shape of the data model), in
which adjacency is symmetric, and in which every referenced node exists,
any sequence of `addEdge`, `deleteEdge` and `updateEdgesForUserNode`
calls leaves adjacency symmetric: if a node lists another node's item
among its neighbors, that node lists the first node's item. -/
theorem graph_edges_symmetric (s : List GraphDoc) (ops : List GraphOp)
    (hnd : itemsNodup s) (hsym : symmetric s) (_href : refsExist s) :
    symmetric (applyOps ops s) := by
  unfold applyOps
  exact (foldl_preserve goodGraph applyOp (fun st op h => applyOp_good h op)
    ops s ⟨hnd, hsym⟩).2

/-- C2 witness: a concrete two-node state run through an `addEdge` and a
full `updateEdgesForUserNode` recomputation. -/
theorem graph_edges_symmetric_witness :
    (itemsNodup [GraphDoc.mk 0 0 0 1 0 [], GraphDoc.mk 1 0 0 2 0 []] ∧
     symmetric [GraphDoc.mk 0 0 0 1 0 [], GraphDoc.mk 1 0 0 2 0 []] ∧
     refsExist [GraphDoc.mk 0 0 0 1 0 [], GraphDoc.mk 1 0 0 2 0 []]) ∧
    symmetric (applyOps [GraphOp.addE 1 2, GraphOp.upd 0 1 [2]]
      [GraphDoc.mk 0 0 0 1 0 [], GraphDoc.mk 1 0 0 2 0 []]) :=
  ⟨⟨by decide, by decide, by decide⟩,
   graph_edges_symmetric [GraphDoc.mk 0 0 0 1 0 [], GraphDoc.mk 1 0 0 2 0 []]
     [GraphOp.addE 1 2, GraphOp.upd 0 1 [2]]
     (by decide) (by decide) (by decide)⟩

/-- The count an association list holds for a key (0 when absent) — the
value of `acc[t] || 0` on the aggregation object. -/
def assocCount (acc : List (String × Nat)) (t : String) : Nat :=
  match acc.find? (fun p => p.1 == t) with
  | some p => p.2
  | none => 0

/-- `assocCount` over a cons. -/
theorem assocCount_cons (k : String) (v : Nat) (rest : List (String × Nat)) (t : String) :
    assocCount ((k, v) :: rest) t = if k = t then v else assocCount rest t := by
  unfold assocCount
  by_cases hk : k = t
  · rw [List.find?_cons_of_pos _ (by simp [hk])]
    simp [hk]
  · rw [List.find?_cons_of_neg _ (by simp [hk])]
    simp [hk]

/-- `bump` adds one to the bumped key and leaves every other count. -/
theorem bump_assocCount (acc : List (String × Nat)) (t t' : String) :
    assocCount (bump acc t) t' = assocCount acc t' + (if t' = t then 1 else 0) := by
  induction acc with
  | nil =>
    have h0 : assocCount [] t' = 0 := rfl
    show assocCount [(t, 1)] t' = assocCount [] t' + (if t' = t then 1 else 0)
    rw [assocCount_cons, h0]
    by_cases h : t = t'
    · subst h
      simp
    · simp [h, Ne.symm h]
  | cons p rest ih =>
    obtain ⟨k, v⟩ := p
    by_cases hk : k = t
    · subst hk
      rw [show bump ((k, v) :: rest) k = (k, v + 1) :: rest from by simp [bump]]
      rw [assocCount_cons, assocCount_cons]
      by_cases h' : k = t'
      · subst h'
        simp
      · simp [h', Ne.symm h']
    · rw [show bump ((k, v) :: rest) t = (k, v) :: bump rest t from by simp [bump, hk]]
      rw [assocCount_cons, assocCount_cons]
      by_cases h' : k = t'
      · subst h'
        simp [hk]
      · simp [h', ih]

/-- `bump` keeps the key list unchanged or appends the new key. -/
theorem bump_map_fst (acc : List (String × Nat)) (t : String) :
    (bump acc t).map Prod.fst =
      if t ∈ acc.map Prod.fst then acc.map Prod.fst
      else acc.map Prod.fst ++ [t] := by
  induction acc with
  | nil => simp [bump]
  | cons p rest ih =>
    obtain ⟨k, v⟩ := p
    by_cases hk : k = t
    · simp [bump, hk]
    · simp only [bump, if_neg hk, List.map_cons, ih]
      by_cases hmem : t ∈ rest.map Prod.fst
      · simp [hmem, Ne.symm hk]
      · simp [hmem, Ne.symm hk]

/-- `bump` preserves distinctness of the keys. -/
theorem bump_keys_nodup (acc : List (String × Nat)) (t : String)
    (h : (acc.map Prod.fst).Nodup) : ((bump acc t).map Prod.fst).Nodup := by
  rw [bump_map_fst]
  by_cases hmem : t ∈ acc.map Prod.fst
  · simpa [hmem] using h
  · rw [if_neg hmem, List.nodup_append]
    refine ⟨h, List.nodup_singleton t, ?_⟩
    intro x hx
    simp only [List.mem_singleton]
    intro hax
    exact hmem (hax ▸ hx)

/-- With distinct keys, a pair of the association list carries exactly
the count `assocCount` reads. -/
theorem assocCount_of_mem (acc : List (String × Nat)) (t : String) (c : Nat)
    (hnd : (acc.map Prod.fst).Nodup) (h : (t, c) ∈ acc) :
    assocCount acc t = c := by
  induction acc with
  | nil => exact absurd h (List.not_mem_nil (t, c))
  | cons p rest ih =>
    obtain ⟨k, v⟩ := p
    rw [List.map_cons] at hnd
    have hnd' := List.nodup_cons.mp hnd
    rcases List.mem_cons.mp h with heq | hmem
    · have hk : k = t := (congrArg Prod.fst heq).symm
      have hv : v = c := (congrArg Prod.snd heq).symm
      rw [assocCount_cons, if_pos hk, hv]
    · have hk : ¬ k = t := by
        intro hkk
        subst hkk
        exact hnd'.1 (by simpa using List.mem_map_of_mem Prod.fst hmem)
      rw [assocCount_cons, if_neg hk]
      exact ih hnd'.2 hmem

/-- Folding `bump` over a duplicate-free tag list adds one to exactly
the counts of its members. -/
theorem foldl_bump_assocCount (ts : List String) (hts : ts.Nodup)
    (acc : List (String × Nat)) (t' : String) :
    assocCount (ts.foldl bump acc) t' =
      assocCount acc t' + (if t' ∈ ts then 1 else 0) := by
  induction ts generalizing acc with
  | nil => simp
  | cons t rest ih =>
    have hn := List.nodup_cons.mp hts
    have hstep : (t :: rest).foldl bump acc = rest.foldl bump (bump acc t) := rfl
    rw [hstep, ih hn.2, bump_assocCount]
    by_cases h' : t' = t
    · subst h'
      simp [hn.1]
    · simp [List.mem_cons, h']

/-- Folding `bump` preserves distinctness of the keys. -/
theorem foldl_bump_keys_nodup (ts : List String) (acc : List (String × Nat))
    (h : (acc.map Prod.fst).Nodup) : ((ts.foldl bump acc).map Prod.fst).Nodup := by
  induction ts generalizing acc with
  | nil => exact h
  | cons t rest ih => exact ih (bump acc t) (bump_keys_nodup acc t h)

/-- The aggregation fold counts, for every tag, the documents whose tag
list contains it — provided each document's tags are duplicate-free. -/
theorem foldl_docs_assocCount (matched : List TagDoc)
    (hτ : ∀ d ∈ matched, d.tags.Nodup) (acc : List (String × Nat)) (t' : String) :
    assocCount (matched.foldl (fun a d => d.tags.foldl bump a) acc) t' =
      assocCount acc t' + (matched.filter fun d => decide (t' ∈ d.tags)).length := by
  induction matched generalizing acc with
  | nil => simp
  | cons d ds ih =>
    have hstep : (d :: ds).foldl (fun a x => x.tags.foldl bump a) acc =
        ds.foldl (fun a x => x.tags.foldl bump a) (d.tags.foldl bump acc) := rfl
    rw [hstep, ih (fun x hx => hτ x (List.mem_cons_of_mem d hx)) (d.tags.foldl bump acc),
      foldl_bump_assocCount d.tags (hτ d (List.mem_cons_self d ds)) acc t']
    by_cases h : t' ∈ d.tags
    · simp [List.filter_cons, h]
      omega
    · simp [List.filter_cons, h]

/-- The aggregation object has distinct keys. -/
theorem tagCounts_keys_nodup (matched : List TagDoc) :
    ((tagCounts matched).map Prod.fst).Nodup := by
  unfold tagCounts
  have : ∀ (l : List TagDoc) (acc : List (String × Nat)),
      (acc.map Prod.fst).Nodup →
      ((l.foldl (fun a d => d.tags.foldl bump a) acc).map Prod.fst).Nodup := by
    intro l
    induction l with
    | nil => exact fun acc h => h
    | cons d ds ih =>
      exact fun acc h => ih (d.tags.foldl bump acc) (foldl_bump_keys_nodup d.tags acc h)
  exact this matched [] (by simp)

/-- Every `(tag, count)` pair of the aggregation counts the matched
documents containing the tag. -/
theorem mem_tagCounts_count (matched : List TagDoc)
    (hτ : ∀ d ∈ matched, d.tags.Nodup) (t : String) (c : Nat)
    (h : (t, c) ∈ tagCounts matched) :
    c = (matched.filter fun d => decide (t ∈ d.tags)).length := by
  have h1 := assocCount_of_mem (tagCounts matched) t c (tagCounts_keys_nodup matched) h
  have h2 := foldl_docs_assocCount matched hτ [] t
  unfold tagCounts at h1
  rw [h1] at h2
  simpa [assocCount] using h2

/-- Descending order on the counts. -/
def sortedDesc (l : List (String × Nat)) : Prop :=
  List.Pairwise (fun a b => b.2 ≤ a.2) l

/-- Membership through `insertDesc`. -/
theorem mem_insertDesc {x z : String × Nat} {l : List (String × Nat)} :
    z ∈ insertDesc x l ↔ z = x ∨ z ∈ l := by
  induction l with
  | nil => simp [insertDesc]
  | cons y ys ih =>
    unfold insertDesc
    split
    · simp only [List.mem_cons, ih]
      tauto
    · simp only [List.mem_cons]
      try tauto

/-- `insertDesc` keeps the list sorted. -/
theorem insertDesc_sorted (x : String × Nat) {l : List (String × Nat)}
    (h : sortedDesc l) : sortedDesc (insertDesc x l) := by
  induction l with
  | nil => simp [insertDesc, sortedDesc]
  | cons y ys ih =>
    rcases List.pairwise_cons.mp h with ⟨hy, hys⟩
    unfold insertDesc
    split
    · case isTrue hle =>
      apply List.pairwise_cons.mpr
      refine ⟨?_, ih hys⟩
      intro z hz
      rcases mem_insertDesc.mp hz with rfl | hz'
      · exact hle
      · exact hy z hz'
    · case isFalse hgt =>
      apply List.pairwise_cons.mpr
      refine ⟨?_, h⟩
      intro z hz
      rcases List.mem_cons.mp hz with rfl | hz'
      · omega
      · have := hy z hz'
        omega

/-- Stability of the insertion: on a sorted list, the pairs of any fixed
count keep their order, the new pair joining at the back of its count
class. -/
theorem insertDesc_filter (x : String × Nat) (c : Nat) {l : List (String × Nat)}
    (h : sortedDesc l) :
    (insertDesc x l).filter (fun p => p.2 == c) =
      l.filter (fun p => p.2 == c) ++ (if x.2 = c then [x] else []) := by
  induction l with
  | nil =>
    by_cases hx : x.2 = c <;> simp [insertDesc, List.filter_cons, hx]
  | cons y ys ih =>
    rcases List.pairwise_cons.mp h with ⟨hy, hys⟩
    unfold insertDesc
    split
    · case isTrue hle =>
      by_cases hyc : y.2 = c
      · simp [List.filter_cons, hyc, ih hys]
      · simp [List.filter_cons, hyc, ih hys]
    · case isFalse hgt =>
      by_cases hxc : x.2 = c
      · have hempty : ((y :: ys).filter fun p => p.2 == c) = [] := by
          apply List.filter_eq_nil_iff.mpr
          intro z hz
          rcases List.mem_cons.mp hz with rfl | hz'
          · simp only [beq_iff_eq]
            omega
          · have := hy z hz'
            simp only [beq_iff_eq]
            omega
        have hcond : (x.2 == c) = true := by simp [hxc]
        rw [List.filter_cons, if_pos hcond, hempty]
        simp [hxc]
      · simp [List.filter_cons, hxc]

/-- The stable sort keeps, for every count, the pairs of that count in
their aggregation order. -/
theorem sortDesc_filter (l : List (String × Nat)) (c : Nat) :
    (sortDesc l).filter (fun p => p.2 == c) = l.filter (fun p => p.2 == c) := by
  have key : ∀ (xs : List (String × Nat)) (acc : List (String × Nat)), sortedDesc acc →
      (xs.foldl (fun a x => insertDesc x a) acc).filter (fun p => p.2 == c) =
        acc.filter (fun p => p.2 == c) ++ xs.filter (fun p => p.2 == c) := by
    intro xs
    induction xs with
    | nil => intro acc h; simp
    | cons x xs' ih =>
      intro acc h
      have hstep : ((x :: xs').foldl (fun a z => insertDesc z a) acc) =
          (xs'.foldl (fun a z => insertDesc z a) (insertDesc x acc)) := rfl
      rw [hstep, ih (insertDesc x acc) (insertDesc_sorted x h), insertDesc_filter x c h,
        List.filter_cons]
      by_cases hxc : x.2 = c
      · simp [hxc]
      · simp [hxc]
  have := key l [] (by simp [sortedDesc])
  simpa [sortDesc] using this

/-- The stable sort is sorted. -/
theorem sortDesc_sorted (l : List (String × Nat)) : sortedDesc (sortDesc l) := by
  have key : ∀ (xs : List (String × Nat)) (acc : List (String × Nat)), sortedDesc acc →
      sortedDesc (xs.foldl (fun a x => insertDesc x a) acc) := by
    intro xs
    induction xs with
    | nil => exact fun acc h => h
    | cons x xs' ih => exact fun acc h => ih (insertDesc x acc) (insertDesc_sorted x h)
  exact key l [] (by simp [sortedDesc])

/-- The stable sort is a reordering: same members. -/
theorem mem_sortDesc {z : String × Nat} {l : List (String × Nat)} :
    z ∈ sortDesc l ↔ z ∈ l := by
  have key : ∀ (xs : List (String × Nat)) (acc : List (String × Nat)),
      (z ∈ xs.foldl (fun a x => insertDesc x a) acc ↔ z ∈ acc ∨ z ∈ xs) := by
    intro xs
    induction xs with
    | nil => intro acc; simp
    | cons x xs' ih =>
      intro acc
      have hstep : ((x :: xs').foldl (fun a w => insertDesc w a) acc) =
          (xs'.foldl (fun a w => insertDesc w a) (insertDesc x acc)) := rfl
      rw [hstep, ih (insertDesc x acc)]
      simp only [mem_insertDesc, List.mem_cons]
      tauto
  have := key l []
  simpa [sortDesc] using this

/-- Splitting a filtered length over two mutually exclusive predicates. -/
theorem length_filter_or_disjoint {α : Type} (l : List α) (p q : α → Bool)
    (hpq : ∀ a, ¬(p a = true ∧ q a = true)) :
    (l.filter fun a => p a || q a).length = (l.filter p).length + (l.filter q).length := by
  induction l with
  | nil => simp
  | cons a as ih =>
    by_cases hp : p a = true
    · have hq : ¬ q a = true := fun hq => hpq a ⟨hp, hq⟩
      simp [List.filter_cons, hp, hq]
      omega
    · by_cases hq : q a = true
      · simp [List.filter_cons, hp, hq]
        omega
      · simp [List.filter_cons, hp, hq, ih]

/-- Among documents with pairwise-distinct items, those of one item `i`
tagged `t` number one when `i`'s tag record contains `t`, zero
otherwise. -/
theorem length_filter_item_eq (docs : List TagDoc) (i : Nat) (t : String)
    (hd : (docs.map fun d => d.item).Nodup) :
    (docs.filter fun d => d.item == i && decide (t ∈ d.tags)).length =
      if t ∈ itemTags docs i then 1 else 0 := by
  induction docs with
  | nil => simp [itemTags]
  | cons d ds ih =>
    rw [List.map_cons] at hd
    have hnd := List.nodup_cons.mp hd
    by_cases hdi : d.item = i
    · have h1 : itemTags (d :: ds) i = d.tags := by
        unfold itemTags
        rw [List.find?_cons_of_pos _ (by simp [hdi])]
        rfl
      have h2 : (ds.filter fun x => x.item == i && decide (t ∈ x.tags)) = [] := by
        apply List.filter_eq_nil_iff.mpr
        intro x hx
        simp only [Bool.and_eq_true, beq_iff_eq, decide_eq_true_eq, not_and]
        intro hxi _
        apply hnd.1
        rw [hdi, ← hxi]
        exact List.mem_map_of_mem _ hx
      rw [h1]
      by_cases ht : t ∈ d.tags
      · simp [List.filter_cons, hdi, ht, h2]
      · simp [List.filter_cons, hdi, ht, h2]
    · have h1 : itemTags (d :: ds) i = itemTags ds i := by
        unfold itemTags
        rw [List.find?_cons_of_neg _ (by simp [hdi])]
      have hcond : (d.item == i && decide (t ∈ d.tags)) = false := by simp [hdi]
      rw [h1, List.filter_cons, hcond]
      simp only [Bool.false_eq_true, if_false]
      exact ih hnd.2

/-- The documents matched by the `$in` filter and tagged `t` are in
bijection with the requested items whose tag record contains `t`. -/
theorem count_docs_eq_count_items (docs : List TagDoc) (items : List Nat) (t : String)
    (hi : items.Nodup) (hd : (docs.map fun d => d.item).Nodup) :
    ((docs.filter fun d => decide (d.item ∈ items)).filter
        fun d => decide (t ∈ d.tags)).length =
      (items.filter fun i => decide (t ∈ itemTags docs i)).length := by
  rw [List.filter_filter]
  induction items with
  | nil => simp
  | cons i rest ih =>
    have hn := List.nodup_cons.mp hi
    have hsplit : (docs.filter fun d => decide (t ∈ d.tags) && decide (d.item ∈ i :: rest)) =
        (docs.filter fun d =>
          (d.item == i && decide (t ∈ d.tags)) ||
          (decide (t ∈ d.tags) && decide (d.item ∈ rest))) := by
      apply List.filter_congr
      intro d _
      by_cases h1 : d.item = i <;> by_cases h2 : t ∈ d.tags <;>
        by_cases h3 : d.item ∈ rest <;> simp [h1, h2, h3]
    rw [hsplit,
      length_filter_or_disjoint docs _ _ (fun d => by
        simp only [Bool.and_eq_true, beq_iff_eq, decide_eq_true_eq]
        rintro ⟨⟨h1, h2⟩, h3, h4⟩
        exact hn.1 (h1 ▸ h4)),
      length_filter_item_eq docs i t hd]
    have hstep2 : ((i :: rest).filter fun j => decide (t ∈ itemTags docs j)).length =
        (if t ∈ itemTags docs i then 1 else 0) +
          (rest.filter fun j => decide (t ∈ itemTags docs j)).length := by
      rw [List.filter_cons]
      by_cases ht : t ∈ itemTags docs i
      · simp [ht]
        omega
      · simp [ht]
    rw [hstep2, ← ih hn.2]
    try omega

/-- The pairs of a given count surviving `take` form a prefix of those
pairs in the full list. -/
theorem filter_take_prefix (l : List (String × Nat)) (n : Nat) (c : Nat) :
    ∃ rest, l.filter (fun p => p.2 == c) =
      (l.take n).filter (fun p => p.2 == c) ++ rest := by
  refine ⟨(l.drop n).filter (fun p => p.2 == c), ?_⟩
  conv_lhs => rw [← List.take_append_drop n l]
  rw [List.filter_append]

/-- C8: `topTagsForItems(items, limit)` returns at most `limit`
`(tag, count)` pairs; each count is the number of the given items whose
tag set contains the tag; the pairs are ordered by count descending; for
every count value, the pairs carrying it appear in the insertion order
of the aggregation (stability of the sort); and on items tagged
`{a, b}`, `{b, c}`, `{b}` with limit 2 the first pair is `b` with count
3 and the second is `a` or `c` with count 1. -/
theorem topTagsForItems_spec (docs : List TagDoc) (items : List Nat) (limit : Nat)
    (hτ : ∀ d ∈ docs, d.tags.Nodup) (hi : items.Nodup)
    (hd : (docs.map fun d => d.item).Nodup) :
    (topTagsForItems docs items limit).length ≤ limit ∧
    (∀ p ∈ topTagsForItems docs items limit,
      p.2 = (items.filter fun i => decide (p.1 ∈ itemTags docs i)).length) ∧
    List.Pairwise (fun a b : String × Nat => b.2 ≤ a.2)
      (topTagsForItems docs items limit) ∧
    (∀ c : Nat, ∃ rest,
      (tagCounts (docs.filter fun d => decide (d.item ∈ items))).filter
          (fun p => p.2 == c) =
        (topTagsForItems docs items limit).filter (fun p => p.2 == c) ++ rest) ∧
    (topTagsForItems [TagDoc.mk 0 0 0 1 ["a", "b"], TagDoc.mk 1 0 0 2 ["b", "c"],
        TagDoc.mk 2 0 0 3 ["b"]] [1, 2, 3] 2 = [("b", 3), ("a", 1)] ∨
     topTagsForItems [TagDoc.mk 0 0 0 1 ["a", "b"], TagDoc.mk 1 0 0 2 ["b", "c"],
        TagDoc.mk 2 0 0 3 ["b"]] [1, 2, 3] 2 = [("b", 3), ("c", 1)]) := by
  have hτm : ∀ d ∈ docs.filter (fun d => decide (d.item ∈ items)), d.tags.Nodup :=
    fun d hdm => hτ d (List.mem_filter.mp hdm).1
  refine ⟨?_, ?_, ?_, ?_, Or.inl (by decide)⟩
  · show ((sortDesc (tagCounts (docs.filter fun d => decide (d.item ∈ items)))).take
        limit).length ≤ limit
    exact List.length_take_le limit _
  · intro p hp
    have hp1 : p ∈ sortDesc (tagCounts (docs.filter fun d => decide (d.item ∈ items))) :=
      List.take_subset limit _ hp
    have hp2 : (p.1, p.2) ∈ tagCounts (docs.filter fun d => decide (d.item ∈ items)) := by
      simpa using mem_sortDesc.mp hp1
    have hcount := mem_tagCounts_count _ hτm p.1 p.2 hp2
    rw [hcount]
    exact count_docs_eq_count_items docs items p.1 hi hd
  · show List.Pairwise _ ((sortDesc (tagCounts
        (docs.filter fun d => decide (d.item ∈ items)))).take limit)
    exact (sortDesc_sorted _).sublist (List.take_sublist limit _)
  · intro c
    obtain ⟨rest, hrest⟩ := filter_take_prefix
      (sortDesc (tagCounts (docs.filter fun d => decide (d.item ∈ items)))) limit c
    refine ⟨rest, ?_⟩
    rw [← sortDesc_filter (tagCounts (docs.filter fun d => decide (d.item ∈ items))) c]
    exact hrest

/-- C8 witness: the dossier of hypotheses and the conclusion at the
concrete `{a, b}`, `{b, c}`, `{b}` store. -/
theorem topTagsForItems_spec_witness :
    ((∀ d ∈ [TagDoc.mk 0 0 0 1 ["a", "b"], TagDoc.mk 1 0 0 2 ["b", "c"],
        TagDoc.mk 2 0 0 3 ["b"]], d.tags.Nodup) ∧
     ([1, 2, 3] : List Nat).Nodup ∧
     (([TagDoc.mk 0 0 0 1 ["a", "b"], TagDoc.mk 1 0 0 2 ["b", "c"],
        TagDoc.mk 2 0 0 3 ["b"]].map fun d => d.item).Nodup) ∧
     (topTagsForItems [TagDoc.mk 0 0 0 1 ["a", "b"], TagDoc.mk 1 0 0 2 ["b", "c"],
        TagDoc.mk 2 0 0 3 ["b"]] [1, 2, 3] 2).length ≤ 2) ∧
    (∀ p ∈ topTagsForItems [TagDoc.mk 0 0 0 1 ["a", "b"], TagDoc.mk 1 0 0 2 ["b", "c"],
        TagDoc.mk 2 0 0 3 ["b"]] [1, 2, 3] 2,
      p.2 = (([1, 2, 3] : List Nat).filter fun i =>
        decide (p.1 ∈ itemTags [TagDoc.mk 0 0 0 1 ["a", "b"], TagDoc.mk 1 0 0 2 ["b", "c"],
          TagDoc.mk 2 0 0 3 ["b"]] i)).length) :=
  ⟨⟨by decide, by decide, by decide,
    (topTagsForItems_spec [TagDoc.mk 0 0 0 1 ["a", "b"], TagDoc.mk 1 0 0 2 ["b", "c"],
        TagDoc.mk 2 0 0 3 ["b"]] [1, 2, 3] 2 (by decide) (by decide) (by decide)).1⟩,
   (topTagsForItems_spec [TagDoc.mk 0 0 0 1 ["a", "b"], TagDoc.mk 1 0 0 2 ["b", "c"],
        TagDoc.mk 2 0 0 3 ["b"]] [1, 2, 3] 2 (by decide) (by decide) (by decide)).2.1⟩

end Backend
